import Mathlib

/-!
Verification of the real-time voice-assistant audio relay of the
electronic-fridge repository against its natural-language specification.

The development shallowly embeds the relevant source functions:

* the WebSocket server session (`server/liveSession.js`): the `onChunk`
  sentence-boundary flush, the `onEnd` end-of-turn flush, and the
  `handleToolCall` dispatcher (`server/tools.js`);
* the SDK-revision client (`components/LiveAssistant.tsx`): the audio codec
  (`createBlob`, `decodeAudioData`), the playback scheduler inside
  `startSession`'s audio callback, the `disconnect` resource release, and the
  tool-call bridge of `connectToLiveChef` (`services/geminiService.ts`)
  composed with the client tool callback and the app-level
  `handleVoiceToolUse` dispatcher;
* the WebSocket-revision client transcript accumulation (`ws.onmessage`
  delta branch).

JavaScript numbers are modelled as rationals (`ℚ`); the only float
operations involved (multiplication by powers of two, truncation,
16-bit wrap-around) are exact on the inputs considered.  Base64 framing is a
bijection on byte sequences and is elided: the codec is modelled from bytes
to bytes.
-/

/-! ## JavaScript auxiliary semantics -/

/-- The character class matched by the JavaScript regular-expression escape
`\s` (ECMA-262 WhiteSpace plus LineTerminator). -/
def isJsSpace (c : Char) : Bool :=
  c == ' ' || c == '\t' || c == '\n' || c == '\r' ||
  c.val == 0x0b || c.val == 0x0c || c.val == 0xa0 || c.val == 0x1680 ||
  (0x2000 ≤ c.val && c.val ≤ 0x200a) ||
  c.val == 0x2028 || c.val == 0x2029 || c.val == 0x202f || c.val == 0x205f ||
  c.val == 0x3000 || c.val == 0xfeff

/-- `String.prototype.trim`: strip leading and trailing `\s` characters. -/
def jsTrim (s : String) : String :=
  ⟨((s.data.dropWhile isJsSpace).reverse.dropWhile isJsSpace).reverse⟩

/-- One of the sentence-terminal characters of the server's flush regex. -/
def isSentenceTerminal (c : Char) : Bool :=
  c == '.' || c == '!' || c == '?'

/-- The test `/[.!?]\s*$/.test s` performed by the server on the spoken
buffer after each append: some sentence-terminal character followed only by
whitespace up to the very end of the string. -/
def hasSentenceBoundary (s : String) : Bool :=
  match s.data.reverse.dropWhile isJsSpace with
  | [] => false
  | c :: _ => isSentenceTerminal c

/-! ## Server wire messages (liveSession.js / tools.js) -/

/-- A JSON message the WebSocket server sends to the client, tagged by its
`type` field. -/
inductive WireMsg where
  | delta (text : String)
  | audio (data mime : String)
  | errorMsg (message : String)
  | done
  | tool (name result : String)
deriving DecidableEq, Repr

/-- The observable outcome of one turn-sequencer step: the wire messages
sent, the synthesis requests issued to the TTS collaborator, and the value
of `spokenBuffer` afterwards. -/
structure SeqOut where
  msgs : List WireMsg
  synthReqs : List String
  buffer : String
deriving DecidableEq, Repr

/-- The `onChunk` handler of `createLiveSession`: send the delta, append the
chunk to `spokenBuffer`, and if the buffer now matches `/[.!?]\s*$/`
synthesize the whole buffer — on success send the audio and clear the
buffer, on failure send a TTS error message (the buffer-clearing assignment
sits inside the `try` block and is skipped).  The TTS collaborator is a
parameter; `Except.error` models a thrown promise rejection. -/
def onChunk (tts : String → Except Unit String) (buf chunk : String) : SeqOut :=
  let buf1 := buf ++ chunk
  if hasSentenceBoundary buf1 then
    match tts buf1 with
    | .ok audioB64 => ⟨[.delta chunk, .audio audioB64 "audio/mp3"], [buf1], ""⟩
    | .error _ => ⟨[.delta chunk, .errorMsg "TTS failed"], [buf1], buf1⟩
  else ⟨[.delta chunk], [], buf1⟩

/-- The `onEnd` handler of `createLiveSession`: if the trimmed buffer is
non-empty, synthesize the remainder (swallowing any failure with an empty
`catch`), clear the buffer, and send `done`; otherwise just send `done`. -/
def onEnd (tts : String → Except Unit String) (buf : String) : SeqOut :=
  if jsTrim buf = "" then ⟨[.done], [], buf⟩
  else
    match tts buf with
    | .ok audioB64 => ⟨[.audio audioB64 "audio/mp3", .done], [buf], ""⟩
    | .error _ => ⟨[.done], [buf], ""⟩

/-- Fold `onChunk` over a sequence of model text deltas arriving in order,
accumulating all sent messages and synthesis requests. -/
def runChunks (tts : String → Except Unit String) (buf : String)
    (chunks : List String) : SeqOut :=
  chunks.foldl
    (fun acc c =>
      let o := onChunk tts acc.buffer c
      ⟨acc.msgs ++ o.msgs, acc.synthReqs ++ o.synthReqs, o.buffer⟩)
    ⟨[], [], buf⟩

/-- A TTS collaborator whose every request succeeds with a fixed payload. -/
def ttsOk : String → Except Unit String := fun _ => .ok "AUDIO"

/-- A TTS collaborator whose every request fails. -/
def ttsFail : String → Except Unit String := fun _ => .error ()

/-- The `handleToolCall` dispatcher of `server/tools.js`: the two known
tools answer with a `type:"tool"` message carrying a canned result; any
other name answers with a `type:"error"` message.  No message of this
revision carries a call id. -/
def handleToolCall (tool : String) : List WireMsg :=
  if tool = "updateInventory" then [.tool tool "Inventory updated"]
  else if tool = "addToShoppingList" then [.tool tool "Item added to shopping list"]
  else [.errorMsg "Unknown tool"]

/-! ## Audio codec (LiveAssistant.tsx, SDK revision) -/

/-- Truncation of a rational toward zero, the integer-conversion step of a
JavaScript `Int16Array` element assignment (`ToIntegerOrInfinity`). -/
def ratTrunc (x : ℚ) : ℤ :=
  if 0 ≤ x then ⌊x⌋ else ⌈x⌉

/-- Reduction of an integer to its 16-bit two's-complement bit pattern,
viewed as the unsigned value stored in the backing buffer. -/
def toUint16 (n : ℤ) : ℕ :=
  (n % 65536).toNat

/-- Reading a 16-bit bit pattern back as a signed `Int16Array` element. -/
def int16OfUint16 (m : ℕ) : ℤ :=
  if m < 32768 then (m : ℤ) else (m : ℤ) - 65536

/-- The per-sample quantisation of `createBlob`:
`int16[i] = data[i] * 32768` with no clamping — the product is converted to
an integer by truncation and wrapped modulo 2^16 by the `Int16Array` store.
The result is the stored 16-bit pattern. -/
def quantize (x : ℚ) : ℕ :=
  toUint16 (ratTrunc (x * 32768))

/-- `createBlob`: quantise each captured float sample to a 16-bit integer
and expose the backing buffer as bytes, little-endian.  (The base64 step of
the source is a bijection on byte sequences and is elided.) -/
def createBlob (samples : List ℚ) : List ℕ :=
  samples.flatMap fun x => [quantize x % 256, quantize x / 256]

/-- Reinterpret a byte sequence as the underlying `Int16Array` of unsigned
16-bit patterns, little-endian; a trailing odd byte yields no element. -/
def uint16sOfBytes : List ℕ → List ℕ
  | b0 :: b1 :: rest => (b0 + 256 * b1) :: uint16sOfBytes rest
  | _ => []

/-- The exceptions `decodeAudioData` can raise: `rangeError` from the
`Int16Array` constructor when the byte length is odd, and `notSupported`
from `ctx.createBuffer` when the (truncated) frame count is zero or the
channel count is outside 1..32. -/
inductive DecodeError where
  | rangeError
  | notSupported
deriving DecidableEq, Repr

/-- `decodeAudioData`: view the bytes as 16-bit integers, de-interleave
`numChannels` channels, and rescale to `[-1, 1]` by dividing by 32768.
The source computes `frameCount = dataInt16.length / numChannels` as a
JavaScript (possibly fractional) division; `createBuffer` truncates it via
WebIDL integer conversion, out-of-range typed-array writes in the fill loop
are silently ignored, so the effective result holds
`⌊dataInt16.length / numChannels⌋` frames per channel. -/
def decodeAudioData (data : List ℕ) (numChannels : ℕ) :
    Except DecodeError (List (List ℚ)) :=
  if data.length % 2 ≠ 0 then .error .rangeError
  else
    let dataInt16 := uint16sOfBytes data
    let frameCount := dataInt16.length / numChannels
    if numChannels = 0 ∨ 32 < numChannels then .error .notSupported
    else if frameCount = 0 then .error .notSupported
    else .ok ((List.range numChannels).map fun channel =>
      (List.range frameCount).map fun i =>
        (int16OfUint16 (dataInt16.getD (i * numChannels + channel) 0) : ℚ) / 32768)

/-- The end-to-end effect of the codec on one sample: quantise as
`createBlob` does, then rescale as `decodeAudioData` does. -/
def roundSample (x : ℚ) : ℚ :=
  (int16OfUint16 (quantize x) : ℚ) / 32768

/-- Boolean success test for an `Except` result. -/
def exceptOk {ε α : Type} : Except ε α → Bool
  | .ok _ => true
  | .error _ => false

/-! ## Playback scheduling (LiveAssistant.tsx, SDK revision) -/

/-- The audio callback of `startSession`: clamp `nextStartTime` to the
current playback-clock time, decode the inbound frame at 24 kHz mono, and on
success schedule it at `nextStartTime`, advancing `nextStartTime` by the
buffer's duration; a decode failure is caught, logged and the frame dropped.
Returns the new `nextStartTime` and the scheduled interval, if any. -/
def onAudioData (nextStart currentTime : ℚ) (data : List ℕ) :
    ℚ × Option (ℚ × ℚ) :=
  let ns := max nextStart currentTime
  match decodeAudioData data 1 with
  | .error _ => (ns, none)
  | .ok chans =>
      let dur := ((chans.headD []).length : ℚ) / 24000
      (ns + dur, some (ns, ns + dur))

/-- Process a whole arrival sequence of inbound audio frames, each tagged
with the playback-clock reading at its arrival; returns the final
`nextStartTime` and the list of scheduled `(start, end)` intervals. -/
def playbackRun (nextStart : ℚ) : List (ℚ × List ℕ) → ℚ × List (ℚ × ℚ)
  | [] => (nextStart, [])
  | (clock, data) :: rest =>
      let step := onAudioData nextStart clock data
      let tail := playbackRun step.1 rest
      (tail.1, step.2.toList ++ tail.2)

/-! ## Tool dispatch bridge (geminiService.ts / LiveAssistant.tsx / App.tsx) -/

/-- One structured function call of a `toolCall` server message. -/
structure FunctionCall where
  id : String
  name : String
  args : String
deriving DecidableEq, Repr

/-- A value the tool-execution callback can produce: a result string or one
of the literal objects `ok: true` / `ok: false` the client wrapper uses. -/
inductive ToolVal where
  | str (s : String)
  | okTrue
  | okFalse
deriving DecidableEq, Repr

/-- The `response.result` payload of a function response: either the
callback's value or the wrapped `error: message` object built when the
callback threw. -/
inductive ToolPayload where
  | value (v : ToolVal)
  | errObj (message : String)
deriving DecidableEq, Repr

/-- One entry of the `functionResponses` array sent via
`session.sendToolResponse`. -/
structure FunctionResponse where
  id : String
  name : String
  response : ToolPayload
deriving DecidableEq, Repr

/-- The `toolCall` branch of `connectToLiveChef`'s `onmessage`: map every
function call to exactly one response carrying the call's own `id` and
`name`; a callback that returns yields its value as the payload, a callback
that throws yields the wrapped error object. -/
def processToolCalls (onToolCall : String → String → Except String ToolVal)
    (fcs : List FunctionCall) : List FunctionResponse :=
  fcs.map fun fc =>
    { id := fc.id
      name := fc.name
      response :=
        match onToolCall fc.name fc.args with
        | .ok r => .value r
        | .error e => .errObj e }

/-- The tool callback `LiveAssistant` passes to `connectToLiveChef`: invoke
the app-supplied handler; return its result (`ok: true` replacing a null
result) and swallow any exception into an `ok: false` result.  It never
throws. -/
def liveToolCallback (appTool : String → String → Except String ToolVal)
    (name args : String) : Except String ToolVal :=
  match appTool name args with
  | .ok r => .ok r
  | .error _ => .ok .okFalse

/-- The name-dispatch skeleton of `App.handleVoiceToolUse`: the three known
tools return a state-dependent status message (abstracted as the `invMsg`,
`shopMsg`, `recMsg` parameters); every other name falls through to the final
`return "Function executed."`.  The handler never throws. -/
def handleVoiceToolUse (invMsg shopMsg recMsg : String) (tool : String)
    (_args : String) : Except String ToolVal :=
  .ok (.str
    (if tool = "updateInventory" then invMsg
     else if tool = "addToShoppingList" then shopMsg
     else if tool = "saveRecipe" then recMsg
     else "Function executed."))

/-- Whether a response payload is an explicit error payload. -/
def isErrPayload : ToolPayload → Bool
  | .errObj _ => true
  | .value _ => false

/-! ## Session resources and disconnect (LiveAssistant.tsx, SDK revision) -/

/-- The resources a live session holds, as the component's refs hold them:
the SDK session handle, the set of started playback source nodes, the count
of live microphone tracks, the two audio contexts (`some b` meaning the
context exists and `b` says whether it is closed), the pending
animation-frame request, and the connection flag. -/
structure LiveResources where
  session : Option Unit
  activeSources : List Nat
  liveMicTracks : Nat
  audioCtxClosed : Option Bool
  inputCtxClosed : Option Bool
  pendingAnimation : Option Nat
  isConnected : Bool
deriving DecidableEq, Repr

/-- The component's initial state: nothing acquired. -/
def initialResources : LiveResources :=
  ⟨none, [], 0, none, none, none, false⟩

/-- The `disconnect` routine: close and drop the session handle if present,
stop and clear all scheduled sources, stop all microphone tracks and drop
the stream, close each audio context not already closed, cancel the pending
animation frame, and mark the component disconnected.  Every step is guarded
(null checks, `state !== 'closed'`, `try`/`catch`), so the routine is total. -/
def disconnect (r : LiveResources) : LiveResources :=
  { session := none
    activeSources := []
    liveMicTracks := 0
    audioCtxClosed := r.audioCtxClosed.map fun _ => true
    inputCtxClosed := r.inputCtxClosed.map fun _ => true
    pendingAnimation := none
    isConnected := false }

/-- All resources released: no session handle, no scheduled sources, no live
microphone tracks, any existing audio context closed, no pending animation
frame. -/
def Released (r : LiveResources) : Prop :=
  r.session = none ∧ r.activeSources = [] ∧ r.liveMicTracks = 0 ∧
    (∀ b ∈ r.audioCtxClosed, b = true) ∧ (∀ b ∈ r.inputCtxClosed, b = true) ∧
    r.pendingAnimation = none

/-! ## Transcript accumulation (LiveAssistant.tsx, WebSocket revision) -/

/-- One entry of the transcript list: who produced it and its text. -/
structure TranscriptEntry where
  user : Bool
  text : String
deriving DecidableEq, Repr

/-- The `delta` branch of `ws.onmessage`: if the most recent transcript
entry exists and is a model (non-user) entry, replace it by the entry with
the delta appended to its text; otherwise append a fresh model entry. -/
def applyDelta (prev : List TranscriptEntry) (txt : String) :
    List TranscriptEntry :=
  match prev.getLast? with
  | some last =>
      if last.user then prev ++ [⟨false, txt⟩]
      else prev.dropLast ++ [⟨false, last.text ++ txt⟩]
  | none => prev ++ [⟨false, txt⟩]

/-- Concatenation of a list of text deltas in order. -/
def concatAll : List String → String
  | [] => ""
  | s :: rest => s ++ concatAll rest

/-! ## Helper lemmas -/

/-- Folding deltas onto a transcript whose last entry is a model entry only
grows that entry's text. -/
lemma foldl_applyDelta_concat (ds : List String) (ts : List TranscriptEntry)
    (t : String) :
    ds.foldl applyDelta (ts ++ [⟨false, t⟩])
      = ts ++ [⟨false, t ++ concatAll ds⟩] := by
  induction ds generalizing t with
  | nil => simp [concatAll]
  | cons d ds ih =>
      have hstep : applyDelta (ts ++ [⟨false, t⟩]) d
          = ts ++ [⟨false, t ++ d⟩] := by
        simp [applyDelta, List.getLast?_concat, List.dropLast_concat]
      simp only [List.foldl_cons, hstep, ih, concatAll]
      simp [String.append_assoc]

/-- The scheduler step never moves `nextStartTime` backwards. -/
lemma onAudioData_le (ns clock : ℚ) (data : List ℕ) :
    ns ≤ (onAudioData ns clock data).1 := by
  unfold onAudioData
  cases decodeAudioData data 1 with
  | error e =>
      simp only
      exact le_max_left ns clock
  | ok chans =>
      simp only
      refine le_trans (le_max_left ns clock) (le_add_of_nonneg_right ?_)
      positivity

/-- Any interval the scheduler step emits starts at the clamp
`max nextStart clock` and ends at the new `nextStartTime`. -/
lemma onAudioData_mem (ns clock : ℚ) (data : List ℕ) :
    ∀ iv ∈ (onAudioData ns clock data).2,
      iv.1 = max ns clock ∧ iv.2 = (onAudioData ns clock data).1 ∧
        iv.1 ≤ iv.2 := by
  unfold onAudioData
  cases decodeAudioData data 1 with
  | error e => simp
  | ok chans =>
      intro iv hiv
      simp only [Option.mem_def, Option.some.injEq] at hiv
      subst hiv
      refine ⟨rfl, rfl, le_add_of_nonneg_right ?_⟩
      positivity

/-- Invariants of a playback run: the final `nextStartTime` never lies
before the initial one, every scheduled interval starts no earlier than the
initial `nextStartTime` and is well-formed, consecutive intervals do not
overlap, and start times are monotone. -/
lemma playbackRun_spec (evs : List (ℚ × List ℕ)) : ∀ ns : ℚ,
    ns ≤ (playbackRun ns evs).1 ∧
      (∀ iv ∈ (playbackRun ns evs).2, ns ≤ iv.1 ∧ iv.1 ≤ iv.2) ∧
      List.Chain' (fun a b : ℚ × ℚ => a.2 ≤ b.1) (playbackRun ns evs).2 ∧
      List.Chain' (fun a b : ℚ × ℚ => a.1 ≤ b.1) (playbackRun ns evs).2 := by
  induction evs with
  | nil => intro ns; simp [playbackRun]
  | cons ev rest ih =>
      intro ns
      obtain ⟨clock, data⟩ := ev
      have hle := onAudioData_le ns clock data
      have hmem := onAudioData_mem ns clock data
      obtain ⟨ih1, ih2, ih3, ih4⟩ := ih (onAudioData ns clock data).1
      simp only [playbackRun]
      refine ⟨le_trans hle ih1, ?_, ?_, ?_⟩
      · intro iv hiv
        rcases List.mem_append.mp hiv with hiv | hiv
        · have hiv' : iv ∈ (onAudioData ns clock data).2 := by
            cases hopt : (onAudioData ns clock data).2 <;>
              simp [hopt] at hiv ⊢
            exact hiv.symm
          obtain ⟨h1, h2, h3⟩ := hmem iv hiv'
          exact ⟨h1 ▸ le_max_left ns clock, h3⟩
        · obtain ⟨h1, h2⟩ := ih2 iv hiv
          exact ⟨le_trans hle h1, h2⟩
      · cases hopt : (onAudioData ns clock data).2 with
        | none => simpa using ih3
        | some iv =>
            simp only [Option.toList_some, List.singleton_append]
            refine List.chain'_cons'.mpr ⟨?_, ih3⟩
            intro b hb
            obtain ⟨h1, h2, h3⟩ := hmem iv (by simp [hopt])
            have hb' := ih2 b (List.mem_of_mem_head? hb)
            exact h2 ▸ hb'.1
      · cases hopt : (onAudioData ns clock data).2 with
        | none => simpa using ih4
        | some iv =>
            simp only [Option.toList_some, List.singleton_append]
            refine List.chain'_cons'.mpr ⟨?_, ih4⟩
            intro b hb
            obtain ⟨h1, h2, h3⟩ := hmem iv (by simp [hopt])
            have hb' := ih2 b (List.mem_of_mem_head? hb)
            exact le_trans (h2 ▸ h3) hb'.1

/-- The 16-bit reinterpretation halves the byte count, dropping a trailing
odd byte. -/
lemma uint16sOfBytes_length : ∀ l : List ℕ,
    (uint16sOfBytes l).length = l.length / 2
  | [] => by simp [uint16sOfBytes]
  | [_] => by simp [uint16sOfBytes]
  | _ :: _ :: rest => by
      simp only [uint16sOfBytes, List.length_cons,
        uint16sOfBytes_length rest]
      omega

/-- Truncation toward zero moves a rational by strictly less than one. -/
lemma ratTrunc_close (y : ℚ) : |(ratTrunc y : ℚ) - y| < 1 := by
  unfold ratTrunc
  split_ifs with h
  · rw [abs_lt]
    constructor
    · linarith [Int.sub_one_lt_floor y]
    · linarith [Int.floor_le y]
  · rw [abs_lt]
    constructor
    · linarith [Int.le_ceil y]
    · linarith [Int.ceil_lt_add_one y]

/-- For samples in `[-1, 1)` the truncated product stays inside the
representable signed 16-bit range. -/
lemma ratTrunc_range (x : ℚ) (h1 : -1 ≤ x) (h2 : x < 1) :
    -32768 ≤ ratTrunc (x * 32768) ∧ ratTrunc (x * 32768) ≤ 32767 := by
  have hy1 : (-32768 : ℚ) ≤ x * 32768 := by linarith
  have hy2 : x * 32768 < 32768 := by linarith
  unfold ratTrunc
  split_ifs with h
  · constructor
    · have h0 : (0 : ℤ) ≤ ⌊x * 32768⌋ := Int.floor_nonneg.mpr h
      omega
    · have hq : (⌊x * 32768⌋ : ℚ) < 32768 := lt_of_le_of_lt (Int.floor_le _) hy2
      have hz : ⌊x * 32768⌋ < (32768 : ℤ) := by exact_mod_cast hq
      omega
  · push_neg at h
    constructor
    · have hq : (-32768 : ℚ) ≤ (⌈x * 32768⌉ : ℚ) := le_trans hy1 (Int.le_ceil _)
      exact_mod_cast hq
    · have h0 : ⌈x * 32768⌉ ≤ 0 := Int.ceil_le.mpr (by exact_mod_cast le_of_lt h)
      omega

/-- The 16-bit store-and-read round trip is the identity on the
representable range. -/
lemma int16_roundtrip (n : ℤ) (h1 : -32768 ≤ n) (h2 : n ≤ 32767) :
    int16OfUint16 (toUint16 n) = n := by
  unfold toUint16 int16OfUint16
  split_ifs with h <;> omega

/-- Per-sample round-trip error bound on `[-1, 1)`. -/
lemma roundSample_close (x : ℚ) (h1 : -1 ≤ x) (h2 : x < 1) :
    |roundSample x - x| ≤ 1 / 32768 := by
  obtain ⟨hl, hr⟩ := ratTrunc_range x h1 h2
  rw [roundSample, quantize, int16_roundtrip _ hl hr]
  have hclose := ratTrunc_close (x * 32768)
  rw [abs_lt] at hclose
  rw [abs_le]
  constructor
  · linarith [hclose.1]
  · linarith [hclose.2]

/-- Unfolding `createBlob` one sample at a time. -/
lemma createBlob_cons (x : ℚ) (rest : List ℚ) :
    createBlob (x :: rest)
      = quantize x % 256 :: quantize x / 256 :: createBlob rest := by
  simp [createBlob]

/-- The byte packing of `createBlob` reassembles to the per-sample
quantisations. -/
lemma uint16sOfBytes_createBlob (samples : List ℚ) :
    uint16sOfBytes (createBlob samples) = samples.map quantize := by
  induction samples with
  | nil => simp [createBlob, uint16sOfBytes]
  | cons x rest ih =>
      rw [createBlob_cons]
      simp only [uint16sOfBytes, ih, List.map_cons]
      congr 1
      exact Nat.mod_add_div (quantize x) 256

/-- `createBlob` produces two bytes per sample. -/
lemma createBlob_length (samples : List ℚ) :
    (createBlob samples).length = 2 * samples.length := by
  induction samples with
  | nil => simp [createBlob]
  | cons x rest ih =>
      rw [createBlob_cons]
      simp only [List.length_cons, ih]
      omega

/-- Reading the quantised samples back through the mono channel fill loop
yields exactly the per-sample round trips, in order. -/
lemma rangeMap_decode (l : List ℚ) :
    (List.range l.length).map
        (fun i => (int16OfUint16 ((l.map quantize).getD i 0) : ℚ) / 32768)
      = l.map roundSample := by
  induction l with
  | nil => simp
  | cons x rest ih =>
      simp only [List.map_cons, List.length_cons, List.range_succ_eq_map,
        List.map_map]
      congr 1

/-- Decoding an encoded nonempty sample sequence succeeds with one channel
holding the per-sample round trips in order. -/
lemma decode_createBlob (samples : List ℚ) (hne : samples ≠ []) :
    decodeAudioData (createBlob samples) 1
      = .ok [samples.map roundSample] := by
  have hne' : ¬ samples.length = 0 := fun h => hne (List.length_eq_zero.mp h)
  simp only [decodeAudioData, createBlob_length, uint16sOfBytes_createBlob,
    List.length_map, Nat.div_one]
  rw [if_neg (by omega : ¬ 2 * samples.length % 2 ≠ 0),
    if_neg (by decide : ¬ ((1 : ℕ) = 0 ∨ 32 < 1)), if_neg hne']
  rw [show List.range 1 = [0] from rfl]
  simp only [List.map_cons, List.map_nil, Nat.mul_one, Nat.add_zero]
  rw [rangeMap_decode]

/-! ## Claim theorems -/

/-- C1: for deltas appended in order, whenever the accumulated buffer's
trailing content matches the sentence-terminal pattern the handler issues
exactly one synthesis request carrying the entire buffer and (synthesis
succeeding) leaves the buffer empty, and when it does not match it issues
none; in particular the deltas "Привет", ", как", " дела?" produce exactly
one request "Привет, как дела?" after which the buffer is empty. -/
theorem claim_c1_sentence_boundary_flush :
    (∀ (tts : String → Except Unit String) (buf chunk audioB64 : String),
        tts (buf ++ chunk) = .ok audioB64 →
        hasSentenceBoundary (buf ++ chunk) = true →
        (onChunk tts buf chunk).synthReqs = [buf ++ chunk] ∧
          (onChunk tts buf chunk).buffer = "") ∧
      (∀ (tts : String → Except Unit String) (buf chunk : String),
        hasSentenceBoundary (buf ++ chunk) = false →
        (onChunk tts buf chunk).synthReqs = [] ∧
          (onChunk tts buf chunk).buffer = buf ++ chunk) ∧
      (runChunks ttsOk "" ["Привет", ", как", " дела?"]).synthReqs
          = ["Привет, как дела?"] ∧
      (runChunks ttsOk "" ["Привет", ", как", " дела?"]).buffer = "" := by
  refine ⟨fun tts buf chunk audioB64 hok hb => ?_,
    fun tts buf chunk hb => ?_, by decide, by decide⟩
  · simp [onChunk, hb, hok]
  · simp [onChunk, hb]

/-- C5 counterexample: a sentence-boundary synthesis failure does NOT clear
the spoken buffer — the claim that the buffer is cleared regardless of the
failure is false: after the failing flush of "Ой." the buffer still holds
"Ой.". -/
theorem claim_c5_counterexample :
    (onChunk ttsFail "" "Ой.").msgs
        = [.delta "Ой.", .errorMsg "TTS failed"] ∧
      (onChunk ttsFail "" "Ой.").buffer ≠ "" := by decide

/-- C5 amended: a sentence-boundary synthesis failure is reported as a
non-fatal error message, the turn continues (no done is sent), but the
buffer retains the failed text (it is cleared only on success, so the text
is included in the next synthesis request); only the end-of-turn flush
clears the buffer regardless of failure. -/
theorem claim_c5_synthesis_failure :
    (∀ (tts : String → Except Unit String) (buf chunk : String),
        tts (buf ++ chunk) = .error () →
        hasSentenceBoundary (buf ++ chunk) = true →
        (onChunk tts buf chunk).msgs
            = [.delta chunk, .errorMsg "TTS failed"] ∧
          (onChunk tts buf chunk).buffer = buf ++ chunk ∧
          WireMsg.done ∉ (onChunk tts buf chunk).msgs) ∧
      (∀ (tts : String → Except Unit String) (buf : String),
        jsTrim buf ≠ "" → tts buf = .error () →
        (onEnd tts buf).buffer = "") ∧
      (onChunk ttsFail "" "Ой.").synthReqs = ["Ой."] := by
  refine ⟨fun tts buf chunk herr hb => ?_, fun tts buf h herr => ?_, by decide⟩
  · simp [onChunk, hb, herr]
  · simp [onEnd, h, herr]

/-- C6: on end of turn, a buffer that is non-empty after trimming yields
exactly one synthesis request for the whole remaining content, the buffer is
cleared, and the done signal is sent last; an empty or whitespace-only
buffer yields zero synthesis requests and still the done signal.  Concrete:
buffer "незакон" yields the request "незакон" followed by done. -/
theorem claim_c6_end_of_turn_flush :
    (∀ (tts : String → Except Unit String) (buf : String), jsTrim buf ≠ "" →
        (onEnd tts buf).synthReqs = [buf] ∧ (onEnd tts buf).buffer = "" ∧
          (onEnd tts buf).msgs.getLast? = some .done) ∧
      (∀ (tts : String → Except Unit String) (buf : String), jsTrim buf = "" →
        (onEnd tts buf).synthReqs = [] ∧ (onEnd tts buf).msgs = [.done]) ∧
      (onEnd ttsOk "незакон").synthReqs = ["незакон"] ∧
      (onEnd ttsOk "незакон").msgs = [.audio "AUDIO" "audio/mp3", .done] ∧
      (onEnd ttsOk "  ").synthReqs = [] := by
  refine ⟨fun tts buf h => ?_, fun tts buf h => ?_, by decide, by decide,
    by decide⟩
  · cases htts : tts buf <;> simp [onEnd, h, htts]
  · simp [onEnd, h]

/-- C9: for every end of the model stream, exactly one done message is sent
and it is the last message; even when the final end-of-turn synthesis fails,
the error is swallowed (done is the only message), the buffer is still
cleared and done is still sent. -/
theorem claim_c9_done_after_stream_end :
    (∀ (tts : String → Except Unit String) (buf : String),
        (onEnd tts buf).msgs.count .done = 1 ∧
          (onEnd tts buf).msgs.getLast? = some .done) ∧
      (∀ (tts : String → Except Unit String) (buf : String),
        jsTrim buf ≠ "" → tts buf = .error () →
        (onEnd tts buf).msgs = [.done] ∧ (onEnd tts buf).buffer = "") ∧
      (onEnd ttsFail "молоко").msgs = [.done] := by
  refine ⟨fun tts buf => ?_, fun tts buf h herr => ?_, by decide⟩
  · by_cases h : jsTrim buf = "" <;>
      [skip; cases htts : tts buf] <;>
      simp [onEnd, h, List.count_cons, *]
  · simp [onEnd, h, herr]

/-- C7: the disconnect routine releases every session resource from any
state, is idempotent, and applied to the never-started initial state is a
no-op; in particular a second call (or a call without a prior start) is
harmless. -/
theorem claim_c7_idempotent_stop :
    (∀ r : LiveResources, Released (disconnect r)) ∧
      (∀ r : LiveResources, disconnect (disconnect r) = disconnect r) ∧
      disconnect initialResources = initialResources := by
  refine ⟨fun r => ?_, fun r => ?_, rfl⟩
  · cases hA : r.audioCtxClosed <;> cases hB : r.inputCtxClosed <;>
      simp [Released, disconnect, hA, hB]
  · cases hA : r.audioCtxClosed <;> cases hB : r.inputCtxClosed <;>
      simp [disconnect, hA, hB]

/-- C2 counterexample: in the only revision whose tool protocol carries call
ids, an unrecognized tool name does NOT produce an explicit error payload:
the single response for call id "call-1" and name "frobnicate" carries the
app dispatcher's fall-through value "Function executed.", which is not an
error payload. -/
theorem claim_c2_counterexample :
    processToolCalls (liveToolCallback (handleVoiceToolUse "" "" ""))
        [⟨"call-1", "frobnicate", ""⟩]
      = [⟨"call-1", "frobnicate", .value (.str "Function executed.")⟩] ∧
      isErrPayload (.value (.str "Function executed.")) = false := by decide

/-- C2 amended: every function call receives exactly one response carrying
its own call id, in order, whatever the callback does; a throwing callback's
error is wrapped into the response payload; the client-side callback never
throws (an unrecognized name falls through to a normal "Function executed."
payload rather than an explicit error payload); the explicit "Unknown tool"
error message exists only in the WebSocket-revision handler, whose messages
carry no call id. -/
theorem claim_c2_tool_responses :
    (∀ (f : String → String → Except String ToolVal)
        (fcs : List FunctionCall),
        (processToolCalls f fcs).map FunctionResponse.id
          = fcs.map FunctionCall.id) ∧
      (∀ (f : String → String → Except String ToolVal)
        (fcs : List FunctionCall) (cid : String),
        (processToolCalls f fcs).countP (fun r => r.id == cid)
          = fcs.countP (fun fc => fc.id == cid)) ∧
      (∀ (f : String → String → Except String ToolVal) (fc : FunctionCall)
        (e : String), f fc.name fc.args = .error e →
        processToolCalls f [fc] = [⟨fc.id, fc.name, .errObj e⟩]) ∧
      (∀ (f : String → String → Except String ToolVal) (fc : FunctionCall)
        (v : ToolVal), f fc.name fc.args = .ok v →
        processToolCalls f [fc] = [⟨fc.id, fc.name, .value v⟩]) ∧
      (∀ (appTool : String → String → Except String ToolVal)
        (name args : String),
        ∃ v, liveToolCallback appTool name args = .ok v) ∧
      processToolCalls (liveToolCallback (handleVoiceToolUse "" "" ""))
          [⟨"call-42", "addToShoppingList", ""⟩]
        = [⟨"call-42", "addToShoppingList", .value (.str "")⟩] ∧
      handleToolCall "frobnicate" = [.errorMsg "Unknown tool"] := by
  refine ⟨fun f fcs => ?_, fun f fcs cid => ?_, fun f fc e h => ?_,
    fun f fc v h => ?_, fun appTool name args => ?_, by decide, by decide⟩
  · simp [processToolCalls]
  · simp [processToolCalls, List.countP_map]
    rfl
  · simp [processToolCalls, h]
  · simp [processToolCalls, h]
  · unfold liveToolCallback
    cases appTool name args <;> exact ⟨_, rfl⟩

/-- C10: in the WebSocket client, a delta is appended to the most recent
transcript entry when that entry is a model entry, and otherwise starts a
fresh model entry, so a maximal run of consecutive deltas arriving on a
transcript that is empty or ends with a user entry yields exactly one model
entry holding their concatenation; each step preserves the order of existing
entries (it either rewrites the last entry's text or appends). -/
theorem claim_c10_delta_coalescing :
    (∀ (ts : List TranscriptEntry) (ds : List String),
        (ts = [] ∨ ∃ e, ts.getLast? = some e ∧ e.user = true) → ds ≠ [] →
        ds.foldl applyDelta ts = ts ++ [⟨false, concatAll ds⟩]) ∧
      (∀ (ts : List TranscriptEntry) (txt : String),
        (applyDelta ts txt).map TranscriptEntry.user
            = ts.map TranscriptEntry.user ∨
          (applyDelta ts txt).map TranscriptEntry.user
            = ts.map TranscriptEntry.user ++ [false]) ∧
      ["Доб", "авил"].foldl applyDelta [⟨true, "вопрос"⟩]
        = [⟨true, "вопрос"⟩, ⟨false, "Добавил"⟩] := by
  refine ⟨fun ts ds h hne => ?_, fun ts txt => ?_, by decide⟩
  · obtain ⟨d, ds', rfl⟩ : ∃ d ds', ds = d :: ds' := by
      cases ds with
      | nil => exact absurd rfl hne
      | cons d ds' => exact ⟨d, ds', rfl⟩
    have hfirst : applyDelta ts d = ts ++ [⟨false, d⟩] := by
      rcases h with rfl | ⟨e, hl, hu⟩
      · simp [applyDelta]
      · simp [applyDelta, hl, hu]
    simp only [List.foldl_cons, hfirst, foldl_applyDelta_concat, concatAll]
  · rcases hl : ts.getLast? with _ | e
    · right
      simp [applyDelta, hl]
    · by_cases hu : e.user
      · right
        simp [applyDelta, hl, hu]
      · left
        have hne2 : ts ≠ [] := by
          rintro rfl
          simp at hl
        have h2 := List.getLast?_eq_getLast ts hne2
        rw [hl] at h2
        have he : e = ts.getLast hne2 := Option.some_inj.mp h2
        have hu' : e.user = false := by simpa using hu
        conv_rhs => rw [← List.dropLast_append_getLast hne2, ← he]
        simp [applyDelta, hl, hu']

/-- C4: over any arrival sequence of inbound audio frames, consecutive
scheduled playback intervals never overlap (each interval ends no later than
the next one starts) and start times are monotone non-decreasing; moreover
every interval a step emits starts exactly at the clamp
`max nextStartTime currentTime` — `nextStartTime` being the previous
interval's end — and ends at the updated `nextStartTime`.  Concrete: a
2-frame buffer arriving at clock 0 and another at clock 1/2 occupy
`[0, 1/12000]` and `[1/2, 1/2 + 1/12000]`. -/
theorem claim_c4_playback_ordering :
    (∀ (ns : ℚ) (evs : List (ℚ × List ℕ)),
        List.Chain' (fun a b : ℚ × ℚ => a.2 ≤ b.1) (playbackRun ns evs).2 ∧
          List.Chain' (fun a b : ℚ × ℚ => a.1 ≤ b.1) (playbackRun ns evs).2) ∧
      (∀ (ns clock : ℚ) (data : List ℕ),
        (onAudioData ns clock data).2.map Prod.fst
            = (onAudioData ns clock data).2.map (fun _ => max ns clock) ∧
          (onAudioData ns clock data).2.map Prod.snd
            = (onAudioData ns clock data).2.map
                (fun _ => (onAudioData ns clock data).1)) ∧
      playbackRun 0 [(0, [0, 0, 0, 0]), (1/2, [0, 0, 0, 0])]
        = (1/2 + 1/12000, [(0, 1/12000), (1/2, 1/2 + 1/12000)]) := by
  refine ⟨fun ns evs => ?_, fun ns clock data => ?_, ?_⟩
  · obtain ⟨_, _, h3, h4⟩ := playbackRun_spec evs ns
    exact ⟨h3, h4⟩
  · unfold onAudioData
    cases decodeAudioData data 1 <;> simp
  · have hmax : max (0 : ℚ) 0 = 0 := by simp
    have hmax2 : max (1 / 12000 : ℚ) (1 / 2) = 1 / 2 := by
      rw [max_eq_right]
      norm_num
    norm_num [playbackRun, onAudioData, decodeAudioData, uint16sOfBytes,
      int16OfUint16, List.range_succ, List.getD, hmax, hmax2]

/-- C8 counterexample: a 6-byte frame decoded with 2 channels succeeds —
the trailing partial frame is silently truncated — although 6 is not a
whole multiple of `2 * 2`, so failure is NOT exactly at byte lengths that
are no multiple of `2 * channelCount`. -/
theorem claim_c8_counterexample :
    decodeAudioData [0, 0, 0, 0, 0, 0] 2 = .ok [[0], [0]] ∧
      6 % (2 * 2) ≠ 0 := by
  constructor
  · norm_num [decodeAudioData, uint16sOfBytes, int16OfUint16,
      List.range_succ, List.getD]
  · decide

/-- C8 amended: for channel counts in 1..32, `decodeAudioData` fails
exactly when the byte length is odd (the `Int16Array` constructor) or the
truncated frame count `(len / 2) / channels` is zero (`createBuffer`); an
even length that is not a multiple of `2 * channels` does not fail — the
partial frame is dropped.  A malformed (odd-length) inbound frame is caught
by the session's audio callback: nothing is scheduled, `nextStartTime` is
merely clamped to the clock, and the session continues. -/
theorem claim_c8_decode_failure :
    (∀ (data : List ℕ) (ch : ℕ), 1 ≤ ch → ch ≤ 32 →
        (exceptOk (decodeAudioData data ch) = true ↔
          data.length % 2 = 0 ∧ 1 ≤ data.length / 2 / ch)) ∧
      (∀ (ns clock : ℚ) (data : List ℕ), data.length % 2 = 1 →
        onAudioData ns clock data = (max ns clock, none)) ∧
      exceptOk (decodeAudioData [0] 1) = false ∧
      onAudioData 0 0 [0] = (0, none) := by
  refine ⟨fun data ch h1 h2 => ?_, fun ns clock data h => ?_, by decide, ?_⟩
  · simp only [decodeAudioData]
    rw [uint16sOfBytes_length]
    by_cases hodd : data.length % 2 = 0
    · have hch : ¬(ch = 0 ∨ 32 < ch) := by omega
      by_cases hfc : data.length / 2 / ch = 0
      · simp [hodd, hch, hfc, exceptOk]
      · simp [hodd, hch, hfc, exceptOk]
        exact Nat.one_le_iff_ne_zero.mpr hfc
    · simp [hodd, exceptOk]
  · have h2 : decodeAudioData data 1 = .error .rangeError := by
      unfold decodeAudioData
      simp [show data.length % 2 ≠ 0 from by omega]
    unfold onAudioData
    rw [h2]
  · have h2 : decodeAudioData [0] 1 = .error .rangeError := by
      norm_num [decodeAudioData]
    unfold onAudioData
    rw [h2]
    simp

/-- C3 counterexample: `createBlob` does not clamp — the in-range sample
`1` quantises to 32768, which the 16-bit store wraps to −32768, so the round
trip returns −1 with absolute error 2, far above the claimed 1/32768
bound. -/
theorem claim_c3_counterexample :
    decodeAudioData (createBlob [1]) 1 = .ok [[-1]] ∧
      ¬ |(-1 : ℚ) - 1| ≤ 1 / 32768 := by
  constructor
  · have hq : quantize 1 = 32768 := by
      norm_num [quantize, ratTrunc, toUint16]
      decide
    norm_num [decodeAudioData, createBlob, hq, uint16sOfBytes, int16OfUint16,
      List.range_succ, List.getD]
  · rw [show ((-1 : ℚ) - 1) = -2 by norm_num, abs_neg,
      show |(2 : ℚ)| = 2 from abs_of_nonneg (by norm_num)]
    norm_num

/-- C3 amended: decoding the encoded form of any nonempty sample sequence
succeeds and returns the per-sample round trips in order, and on the
half-open range `[-1, 1)` each round-tripped sample differs from the
original by at most 1/32768; the sample exactly `1` instead wraps to `-1`
(see the counterexample).  Concrete: the sample `1/2` round-trips
exactly. -/
theorem claim_c3_roundtrip :
    (∀ samples : List ℚ, samples ≠ [] →
        decodeAudioData (createBlob samples) 1
          = .ok [samples.map roundSample]) ∧
      (∀ x : ℚ, -1 ≤ x → x < 1 → |roundSample x - x| ≤ 1 / 32768) ∧
      (∀ samples : List ℚ, (∀ x ∈ samples, -1 ≤ x ∧ x < 1) →
        ∀ i, i < samples.length →
          |(samples.map roundSample).getD i 0 - samples.getD i 0|
            ≤ 1 / 32768) ∧
      decodeAudioData (createBlob [1/2]) 1 = .ok [[1/2]] := by
  refine ⟨decode_createBlob, roundSample_close,
    fun samples hin i hi => ?_, ?_⟩
  · rw [List.getD_eq_getElem _ _ (by simpa using hi),
      List.getD_eq_getElem _ _ hi, List.getElem_map]
    have hmem : samples[i] ∈ samples := List.getElem_mem hi
    exact roundSample_close _ (hin _ hmem).1 (hin _ hmem).2
  · have hr : roundSample (1 / 2) = 1 / 2 := by
      have hq : quantize (1 / 2) = 16384 := by
        norm_num [quantize, ratTrunc, toUint16]
        decide
      rw [roundSample, hq]
      norm_num [int16OfUint16]
    rw [decode_createBlob [1 / 2] (by simp)]
    simp only [List.map_cons, List.map_nil, hr]
